import Mathlib

/-!
Verification of the KMS-server sync pipeline (`main.js` and the revisions kept
in `part_001`): endpoint extraction from free-form text, the candidate filter,
the fallback list, reachability validation, selection, and the DNS upsert
arguments.  Strings are modelled as `List Char`; the four JavaScript regular
expressions of `extractKmsServers` are embedded as executable deterministic
matchers that reproduce the greedy/backtracking behaviour of the concrete
patterns, and the `exec`-loop with the `g` flag is embedded as a fuelled scan
that advances past each match (or by one character when no match starts at the
current position).
-/

namespace KmsCheck

/-- Strings of the modelled program, as lists of characters. -/
abbrev Str := List Char

/-- Coerce a Lean string literal to the character-list representation. -/
def str (s : String) : Str := s.toList

/-! ### Character classes used by the regular expressions -/

/-- Digit class `\d` (ASCII `0`-`9`). -/
def isDigitCh (c : Char) : Bool := 48 ≤ c.toNat && c.toNat ≤ 57

/-- ASCII letters. -/
def isAlphaCh (c : Char) : Bool :=
  (65 ≤ c.toNat && c.toNat ≤ 90) || (97 ≤ c.toNat && c.toNat ≤ 122)

/-- The class `[a-zA-Z0-9]`. -/
def isAlnumCh (c : Char) : Bool := isAlphaCh c || isDigitCh c

/-- The class `[a-zA-Z0-9.-]` that the patterns use for host characters. -/
def isHostCh (c : Char) : Bool := isAlnumCh c || c == '.' || c == '-'

/-- JavaScript word characters `\w` (used by `\b` boundaries): `[A-Za-z0-9_]`. -/
def isWordCh (c : Char) : Bool := isAlnumCh c || c == '_'

/-- JavaScript whitespace class `\s` (ASCII part plus the Unicode spaces). -/
def isWsCh (c : Char) : Bool :=
  let n := c.toNat
  n == 32 || n == 9 || n == 10 || n == 11 || n == 12 || n == 13 ||
  n == 0xa0 || n == 0x1680 || (0x2000 ≤ n && n ≤ 0x200a) ||
  n == 0x2028 || n == 0x2029 || n == 0x202f || n == 0x205f || n == 0x3000 ||
  n == 0xfeff

/-- Code point with upper-case ASCII letters folded to lower case. -/
def lowN (c : Char) : Nat :=
  if 65 ≤ c.toNat && c.toNat ≤ 90 then c.toNat + 32 else c.toNat

/-- Case-insensitive character comparison (ASCII folding, as the `i` flag does
on the patterns at hand). -/
def eqCI (a b : Char) : Bool := lowN a == lowN b

/-! ### Substring searching -/

/-- Does `needle` occur at the head of `hay`, comparing characters with `eq`? -/
def startsWithBy (eq : Char → Char → Bool) : Str → Str → Bool
  | _, [] => true
  | [], _ :: _ => false
  | h :: hay, n :: needle => eq h n && startsWithBy eq hay needle

/-- Does `needle` occur anywhere in `hay`, comparing characters with `eq`? -/
def containsBy (eq : Char → Char → Bool) (hay needle : Str) : Bool :=
  startsWithBy eq hay needle ||
    match hay with
    | [] => false
    | _ :: hay => containsBy eq hay needle

/-- Case-sensitive substring test (JavaScript `String.prototype.includes`, and
an unanchored regex `test` on a literal pattern). -/
def containsSub (hay needle : Str) : Bool := containsBy (fun a b => a == b) hay needle

/-- Case-insensitive substring test (unanchored `test` of a literal pattern
with the `i` flag). -/
def containsCI (hay needle : Str) : Bool := containsBy eqCI hay needle

/-- Case-insensitive suffix test (a regex `pat$` with the `i` flag). -/
def endsWithCI (s suffix : Str) : Bool := startsWithBy eqCI s.reverse suffix.reverse

/-! ### The post-filter `isLikelyKmsServer` of `main.js` -/

/-- One step of the unanchored test of `/\d{1,3}\.\d{1,3}\.\d{1,3}\.\d{1,3}/`:
consume one to three digits (the whole digit run, since a dot must follow
immediately) and then a literal dot. -/
def octetDot (s : Str) : Option Str :=
  let d := s.takeWhile isDigitCh
  if 1 ≤ d.length && d.length ≤ 3 then
    match s.dropWhile isDigitCh with
    | '.' :: rest => some rest
    | _ => none
  else none

/-- Does `/\d{1,3}\.\d{1,3}\.\d{1,3}\.\d{1,3}/` match starting exactly here? -/
def ipAt (s : Str) : Bool :=
  match octetDot s with
  | some r1 =>
    match octetDot r1 with
    | some r2 =>
      match octetDot r2 with
      | some r3 => 1 ≤ (r3.takeWhile isDigitCh).length
      | none => false
    | none => false
  | none => false

/-- Unanchored test of the dotted-quad pattern used in `isLikelyKmsServer`. -/
def ipTest : Str → Bool
  | [] => false
  | c :: rest => ipAt (c :: rest) || ipTest rest

/-- Scan a host-character run for a dot followed by an alphanumeric character;
this is the backtracking core of testing `/[a-zA-Z0-9][a-zA-Z0-9.-]*\.[a-zA-Z0-9]+/`
once an alphanumeric start has been fixed. -/
def dotAlnumScan : Str → Bool
  | [] => false
  | c :: rest =>
    if !isHostCh c then false
    else if c == '.' && (match rest with | d :: _ => isAlnumCh d | [] => false) then true
    else dotAlnumScan rest

/-- Unanchored test of `/[a-zA-Z0-9][a-zA-Z0-9.-]*\.[a-zA-Z0-9]+/`. -/
def domainTest : Str → Bool
  | [] => false
  | c :: rest => (isAlnumCh c && dotAlnumScan rest) || domainTest rest

/-- The denylist loop of `isLikelyKmsServer`: true when any of the fixed
`notKmsPatterns` matches the server string. -/
def notKmsMatch (s : Str) : Bool :=
  containsCI s (str "github.com") || containsCI s (str "example.com") ||
  containsCI s (str "localhost") || containsSub s (str "127.0.0.1") ||
  containsCI s (str "test.") || endsWithCI s (str ".js") ||
  endsWithCI s (str ".css") || endsWithCI s (str ".html") ||
  endsWithCI s (str ".png") || endsWithCI s (str ".jpg") ||
  endsWithCI s (str ".gif")

/-- The allowlist loop of `isLikelyKmsServer`: a KMS-related keyword or a
dotted-quad shape anywhere in the server string. -/
def kmsKeywordMatch (s : Str) : Bool :=
  containsCI s (str "kms") || containsCI s (str "vlmcs") ||
  containsCI s (str "activate") || ipTest s

/-- `isLikelyKmsServer(server)` from `main.js`: reject on the denylist, accept
on the keyword allowlist, otherwise accept exactly the syntactically
domain-like strings. -/
def isLikelyKmsServer (s : Str) : Bool :=
  if notKmsMatch s then false
  else if kmsKeywordMatch s then true
  else domainTest s

/-! ### Pattern 1: `/(?:kms|KMS)\s*:\s*([a-zA-Z0-9.-]+(?::\d+)?)/g`

The matchers return `(host, optional port, rest of the text after the match)`;
the capture group of the concrete pattern is `host` when no port was taken and
`host ++ ":" ++ port` otherwise. -/

/-- The optional `(?::\\d+)?` at the end of the pattern-1 capture group, plus
the end of the whole match: a port is captured when a colon follows with a
non-empty digit run; otherwise the match ends after the host. -/
def match1Port (host cs4 : Str) : Option (Str × Option Str × Str) :=
  match cs4 with
  | ':' :: cs5 =>
    let port := cs5.takeWhile isDigitCh
    if port.isEmpty then some (host, none, cs4)
    else some (host, some port, cs5.dropWhile isDigitCh)
  | _ => some (host, none, cs4)

/-- The `[a-zA-Z0-9.-]+` host of the pattern-1 capture group: the greedy
non-empty run of host characters, then the optional port. -/
def match1Host (cs3 : Str) : Option (Str × Option Str × Str) :=
  let host := cs3.takeWhile isHostCh
  if host.isEmpty then none else match1Port host (cs3.dropWhile isHostCh)

/-- The part of pattern 1 after the `kms`/`KMS` label: `\\s*:\\s*` then the
capture group.  The character classes `\\s`, `[a-zA-Z0-9.-]` and `\\d` are
pairwise arranged so that the greedy runs need no backtracking. -/
def match1Colon (cs : Str) : Option (Str × Option Str × Str) :=
  match cs.dropWhile isWsCh with
  | ':' :: cs2 => match1Host (cs2.dropWhile isWsCh)
  | _ => none

/-- Try pattern 1 at the current position. -/
def match1At (cs : Str) : Option (Str × Option Str × Str) :=
  if List.isPrefixOf (str "kms") cs || List.isPrefixOf (str "KMS") cs then
    match1Colon (cs.drop 3)
  else none

/-- The `exec` loop of pattern 1 with the `g` flag: emit each match and resume
after it, otherwise advance one character.  `fuel` dominates the number of
steps; `scan1` supplies `length + 1`, which suffices because every match
consumes at least one character. -/
def scan1Fuel : Nat → Str → List (Str × Option Str)
  | 0, _ => []
  | _ + 1, [] => []
  | f + 1, c :: cs =>
    match match1At (c :: cs) with
    | some (h, p, rest) => (h, p) :: scan1Fuel f rest
    | none => scan1Fuel f cs

/-- All pattern-1 matches of a text, in order. -/
def scan1 (text : Str) : List (Str × Option Str) := scan1Fuel (text.length + 1) text

/-! ### Pattern 2: `/\b([a-zA-Z0-9][a-zA-Z0-9.-]*\.[a-zA-Z0-9]+)(?::(\d+))?\b/g` -/

/-- The step of the star-split search at a dot candidate: when `c` is a dot
followed in `R` by an alphanumeric character, take the greedy alphanumeric run
as the `[a-zA-Z0-9]+` part; with `uscore` on (pattern 2), reject when the run
is followed by `_`, which would make the trailing `\b` fail with no recovery. -/
def split2Dot (uscore : Bool) (c : Char) (R afterR : Str) : Option (Str × Str) :=
  if c == '.' then
    match R with
    | d :: _ =>
      if isAlnumCh d then
        if uscore && (R.dropWhile isAlnumCh ++ afterR).head? == some '_' then none
        else some ('.' :: R.takeWhile isAlnumCh, R.dropWhile isAlnumCh ++ afterR)
      else none
    | [] => none
  else none

/-- Backtracking search for the split `[a-zA-Z0-9.-]* \. [a-zA-Z0-9]+` inside
the maximal host-character run `R`: the star is greedy, so the engine settles
on the rightmost dot of `R` whose `split2Dot` step succeeds.  Returns the
matched tail (from the dot used) and the unconsumed continuation. -/
def split2 (uscore : Bool) : Str → Str → Option (Str × Str)
  | [], _ => none
  | c :: R, afterR =>
    match split2 uscore R afterR with
    | some (ht, cont) => some (c :: ht, cont)
    | none => split2Dot uscore c R afterR

/-- The optional `(?::(\d+))?` followed by `\b` after a pattern-2 host: a port
is taken when a colon follows with a non-empty digit run not followed by a
word character; otherwise the optional group matches empty and the `\b` after
the host holds (its next character is never a word character here). -/
def portTail2 (host cont : Str) : Option (Str × Option Str × Str) :=
  match cont with
  | ':' :: cs2 =>
    let d := cs2.takeWhile isDigitCh
    let cs3 := cs2.dropWhile isDigitCh
    if d.isEmpty then some (host, none, cont)
    else
      match cs3 with
      | [] => some (host, some d, cs3)
      | e :: _ => if isWordCh e then some (host, none, cont) else some (host, some d, cs3)
  | _ => some (host, none, cont)

/-- Try pattern 2 at the current position; `prevWord` tells whether the
preceding character was a word character (for the leading `\b`). -/
def match2At (prevWord : Bool) (cs : Str) : Option (Str × Option Str × Str) :=
  if prevWord then none
  else
    match cs with
    | [] => none
    | c :: cs1 =>
      if isAlnumCh c then
        match split2 true (cs1.takeWhile isHostCh) (cs1.dropWhile isHostCh) with
        | some (ht, cont) => portTail2 (c :: ht) cont
        | none => none
      else none

/-- The `exec` loop of pattern 2, tracking whether the previous character is a
word character; every match ends in a word character. -/
def scan2Fuel : Nat → Bool → Str → List (Str × Option Str)
  | 0, _, _ => []
  | _ + 1, _, [] => []
  | f + 1, pw, c :: cs =>
    match match2At pw (c :: cs) with
    | some (h, p, rest) => (h, p) :: scan2Fuel f true rest
    | none => scan2Fuel f (isWordCh c) cs

/-- All pattern-2 matches of a text, in order. -/
def scan2 (text : Str) : List (Str × Option Str) := scan2Fuel (text.length + 1) false text

/-! ### Pattern 3: `/\b(\d{1,3}\.\d{1,3}\.\d{1,3}\.\d{1,3})(?::(\d+))?\b/g` -/

/-- One `\d{1,3}\.` group of pattern 3, returning the digits.  The digits
before the dot are necessarily the whole digit run. -/
def octetDotG (s : Str) : Option (Str × Str) :=
  let d := s.takeWhile isDigitCh
  if 1 ≤ d.length && d.length ≤ 3 then
    match s.dropWhile isDigitCh with
    | '.' :: rest => some (d, rest)
    | _ => none
  else none

/-- After the fourth digit group of pattern 3: try the optional port exactly
as in pattern 2; with no colon, the trailing `\b` still has to hold, and it
fails for good when a word character follows the digits. -/
def portTail3 (host cont : Str) : Option (Str × Option Str × Str) :=
  match cont with
  | ':' :: cs2 =>
    let d := cs2.takeWhile isDigitCh
    let cs3 := cs2.dropWhile isDigitCh
    if d.isEmpty then some (host, none, cont)
    else
      match cs3 with
      | [] => some (host, some d, cs3)
      | e :: _ => if isWordCh e then some (host, none, cont) else some (host, some d, cs3)
  | [] => some (host, none, cont)
  | e :: _ => if isWordCh e then none else some (host, none, cont)

/-- Try pattern 3 at the current position. -/
def match3At (prevWord : Bool) (cs : Str) : Option (Str × Option Str × Str) :=
  if prevWord then none
  else
    match octetDotG cs with
    | some (g1, r1) =>
      match octetDotG r1 with
      | some (g2, r2) =>
        match octetDotG r2 with
        | some (g3, r3) =>
          let g4 := r3.takeWhile isDigitCh
          if 1 ≤ g4.length && g4.length ≤ 3 then
            portTail3 (g1 ++ '.' :: g2 ++ '.' :: g3 ++ '.' :: g4) (r3.dropWhile isDigitCh)
          else none
        | none => none
      | none => none
    | none => none

/-- The `exec` loop of pattern 3; matches end in a digit, a word character. -/
def scan3Fuel : Nat → Bool → Str → List (Str × Option Str)
  | 0, _, _ => []
  | _ + 1, _, [] => []
  | f + 1, pw, c :: cs =>
    match match3At pw (c :: cs) with
    | some (h, p, rest) => (h, p) :: scan3Fuel f true rest
    | none => scan3Fuel f (isWordCh c) cs

/-- All pattern-3 matches of a text, in order. -/
def scan3 (text : Str) : List (Str × Option Str) := scan3Fuel (text.length + 1) false text

/-! ### Pattern 4: `/(?:服务器|server)[^\w\d\r\n]*([a-zA-Z0-9][a-zA-Z0-9.-]*\.[a-zA-Z0-9]+(?::\d+)?)/gi` -/

/-- The gap class `[^\w\d\r\n]` of pattern 4. -/
def isGapCh (c : Char) : Bool := !isWordCh c && c != '\r' && c != '\n'

/-- The optional `(?::\d+)?` after a pattern-4 host: the pattern ends here, so
a non-empty digit run after a colon is always taken, and nothing else is
checked. -/
def portTail4 (host cont : Str) : Option (Str × Option Str × Str) :=
  match cont with
  | ':' :: cs3 =>
    let d := cs3.takeWhile isDigitCh
    if d.isEmpty then some (host, none, cont)
    else some (host, some d, cs3.dropWhile isDigitCh)
  | _ => some (host, none, cont)

/-- The gap and the capture group of pattern 4, after the keyword.  The gap is
greedy and cannot backtrack usefully (its characters are never alphanumeric),
and the group has no trailing `\b`. -/
def match4Gap (cs : Str) : Option (Str × Option Str × Str) :=
  match cs.dropWhile isGapCh with
  | [] => none
  | c :: cs2 =>
    if isAlnumCh c then
      match split2 false (cs2.takeWhile isHostCh) (cs2.dropWhile isHostCh) with
      | some (ht, cont) => portTail4 (c :: ht) cont
      | none => none
    else none

/-- Try pattern 4 at the current position (the keyword is matched
case-insensitively by the `i` flag; `服务器` has no case versions). -/
def match4At (cs : Str) : Option (Str × Option Str × Str) :=
  if startsWithBy (fun a b => a == b) cs (str "服务器") then match4Gap (cs.drop 3)
  else if startsWithBy eqCI cs (str "server") then match4Gap (cs.drop 6)
  else none

/-- The `exec` loop of pattern 4 (no boundary assertions, so no tracking). -/
def scan4Fuel : Nat → Str → List (Str × Option Str)
  | 0, _ => []
  | _ + 1, [] => []
  | f + 1, c :: cs =>
    match match4At (c :: cs) with
    | some (h, p, rest) => (h, p) :: scan4Fuel f rest
    | none => scan4Fuel f cs

/-- All pattern-4 matches of a text, in order. -/
def scan4 (text : Str) : List (Str × Option Str) := scan4Fuel (text.length + 1) text

/-! ### `extractKmsServers` -/

/-- Build the server string from a match, as the branchwork at the bottom of
the `while` loop does for each of the four patterns: append the captured port
when there is one, the default `1688` otherwise. -/
def mkServer : Str × Option Str → Str
  | (h, some p) => h ++ ':' :: p
  | (h, none) => h ++ str ":1688"

/-- JavaScript `server.split(':')[0]`: everything before the first colon. -/
def hostOf (s : Str) : Str := s.takeWhile (fun c => c != ':')

/-- The three hard-coded `specificServers` of `extractKmsServers`. -/
def specificServers : List Str :=
  [str "kms.hmg.pw:1688", str "kms.xingez.me:1688", str "140.246.142.164:1688"]

/-- The specific servers whose host occurs as a raw substring of the text;
these are added without consulting `isLikelyKmsServer`. -/
def specificHits (text : Str) : List Str :=
  specificServers.filter (fun s => containsSub text (hostOf s))

/-- Insert into the back of the list unless already present: one `Set.add`. -/
def addUnique (l : List Str) (a : Str) : List Str := if a ∈ l then l else l ++ [a]

/-- `extractKmsServers(text)` from `main.js`: the four pattern scans in order,
each match kept only when `isLikelyKmsServer` accepts it, then the specific
servers, all deduplicated in insertion order (`Array.from` of the `Set`). -/
def extractKmsServers (text : Str) : List Str :=
  List.foldl addUnique []
    (((scan1 text).map mkServer ++ (scan2 text).map mkServer ++
        (scan3 text).map mkServer ++ (scan4 text).map mkServer).filter isLikelyKmsServer
      ++ specificHits text)

/-! ### Fallback list and the issue-fetching wrapper (`main.js`) -/

/-- `useFallbackKmsServers()` from `main.js`, verbatim. -/
def useFallbackKmsServers : List Str :=
  [str "kms.hmg.pw:1688", str "kms.xingez.me:1688", str "140.246.142.164:1688",
   str "kms.03k.org:1688", str "kms.chinancce.com:1688", str "kms.ddns.net:1688",
   str "kms.ddz.red:1688", str "kms.lotro.cc:1688", str "kms.luody.info:1688",
   str "kms.moeclub.org:1688", str "kms8.MSGuides.com:1688", str "xykz.f3322.org:1688",
   str "kms.cangshui.net:1688"]

/-- Modelled from the spec: the documented 13-entry fallback literal list of
section 6, written exactly as the spec writes it, for comparison with the
code's `useFallbackKmsServers`. -/
def specFallbackList : List Str :=
  [str "kms.hmg.pw:1688", str "kms.xingez.me:1688", str "140.246.142.164:1688",
   str "kms.03k.org:1688", str "kms.chinancce.com:1688", str "kms.ddns.net:1688",
   str "kms.ddz.red:1688", str "kms.lotro.cc:1688", str "kms.luody.info:1688",
   str "kms.moeclub.org:1688", str "kms8.msguides.com:1688", str "xykz.f3322.org:1688",
   str "kms.cangshui.net:1688"]

/-- Outcome of fetching the GitHub issue: a body, a non-2xx response, or a
thrown network error. -/
inductive FetchOutcome where
  | ok (body : Str)
  | httpError
  | networkError
deriving DecidableEq

/-- `getKmsServersFromIssue()` from `main.js`: on any fetch failure use the
fallback list; otherwise extract from the body and use the fallback list
exactly when extraction found nothing. -/
def getKmsServersFromIssue : FetchOutcome → List Str
  | .ok body =>
    let servers := extractKmsServers body
    if servers.isEmpty then useFallbackKmsServers else servers
  | .httpError => useFallbackKmsServers
  | .networkError => useFallbackKmsServers

/-! ### Validation and selection (`main.js`) -/

/-- Outcome of the `nc -zv -w 3 host port` child process: resolved with its
two output streams, or rejected (non-zero exit, timeout, spawn failure). -/
inductive ExecOutcome where
  | ok (stdout stderr : Str)
  | err (msg : Str)
deriving DecidableEq

/-- One iteration of the `validateKmsServers` loop of `main.js`: a server is
kept unless the command rejected or its stderr contains `Connection refused`. -/
def probeReachable : ExecOutcome → Bool
  | .ok _ stderr => !containsSub stderr (str "Connection refused")
  | .err _ => false

/-- `validateKmsServers(servers)` from `main.js`, with the `nc` transport
abstracted into an oracle: the input order is preserved and exactly the
reachable servers are kept. -/
def validateKmsServers (probe : Str → ExecOutcome) (servers : List Str) : List Str :=
  servers.filter (fun s => probeReachable (probe s))

/-- `selectKmsServer(validServers)` from `main.js`: `validServers[0]`, which is
`undefined` on an empty array. -/
def selectKmsServer (validServers : List Str) : Option Str := validServers.head?

/-! ### TCP probe of the `part_001` revision -/

/-- Outcome of one `net.Socket` connection attempt in `testKmsServer`
(`part_001`): the `connect` callback, an `error` event carrying a message
(refused, unreachable, DNS resolution failure, reset), or the 5-second timer. -/
inductive SocketOutcome where
  | connected
  | socketError (msg : Str)
  | timedOut
deriving DecidableEq

/-- `testKmsServer(serverAddress)` from `part_001`: resolves `true` on
`connect` and `false` on both the `error` event and the timeout; it never
rejects. -/
def testKmsServer : SocketOutcome → Bool
  | .connected => true
  | .socketError _ => false
  | .timedOut => false

/-- The probing loop of `main()` in `part_001`, viewed as the batch-probe
stage: each candidate in input order paired with its `testKmsServer` result. -/
def probeAll (oracle : Str → SocketOutcome) (servers : List Str) : List (Str × Bool) :=
  servers.map (fun s => (s, testKmsServer (oracle s)))

/-- The accumulation of `validKmsServers` in `main()` of `part_001`: the
candidates whose probe resolved `true`, in input order. -/
def validKmsServersPart001 (oracle : Str → SocketOutcome) (servers : List Str) : List Str :=
  servers.filter (fun s => testKmsServer (oracle s))

/-! ### DNS publishing -/

/-- The JSON body sent to the Cloudflare DNS-records endpoint. -/
structure DnsUpsert where
  rtype : Str
  name : Str
  content : Str
  ttl : Nat
  proxied : Bool
deriving DecidableEq

/-- The config `dnsRecordName` of `main.js`. -/
def dnsRecordName : Str := str "kms.everyhub.top"

/-- The request body built by `createCloudflareRecord(selectedServer)` in
`main.js`: always a `CNAME` whose content is the host part of the server. -/
def createCloudflareRecordBody (selectedServer : Str) : DnsUpsert :=
  ⟨str "CNAME", dnsRecordName, hostOf selectedServer, 120, false⟩

/-- The request body built by `updateCloudflareRecordById(recordId,
selectedServer)` in `main.js`: identical to the creation body. -/
def updateCloudflareRecordByIdBody (selectedServer : Str) : DnsUpsert :=
  ⟨str "CNAME", dnsRecordName, hostOf selectedServer, 120, false⟩

/-- `isValidIpAddress(str)` from the `part_001` revision: the anchored
dotted-quad shape test `^(\d{1,3})\.(\d{1,3})\.(\d{1,3})\.(\d{1,3})$`. -/
def ipv4Shape (s : Str) : Bool :=
  match octetDotG s with
  | some (_, r1) =>
    match octetDotG r1 with
    | some (_, r2) =>
      match octetDotG r2 with
      | some (_, r3) =>
        let d := r3.takeWhile isDigitCh
        (1 ≤ d.length && d.length ≤ 3) && (r3.dropWhile isDigitCh).isEmpty
      | none => false
    | none => false
  | none => false

/-- JavaScript `String.prototype.split` on a single-character separator. -/
def splitOn (sep : Char) : Str → List Str
  | [] => [[]]
  | c :: rest =>
    let parts := splitOn sep rest
    if c == sep then [] :: parts
    else
      match parts with
      | p :: ps => (c :: p) :: ps
      | [] => [[c]]

/-- Numeric value of a digit string (`parseInt` on the all-digit parts that
the anchored shape guarantees). -/
def strToNat (s : Str) : Nat := s.foldl (fun n c => n * 10 + (c.toNat - 48)) 0

/-- `isValidIpAddress` from `part_001`: the anchored shape, then every
dot-separated part parsed and bounded by `0 ≤ part ≤ 255`. -/
def isValidIpAddress (s : Str) : Bool :=
  ipv4Shape s && (splitOn '.' s).all (fun p => strToNat p ≤ 255)

/-- The record-type choice in `main()` of the `part_001` revision: `A` for a
valid IPv4 literal host, `CNAME` otherwise. -/
def part001RecordType (serverHost : Str) : Str :=
  if isValidIpAddress serverHost then str "A" else str "CNAME"

/-! ### The `main()` control flow of `main.js` -/

/-- Outcome of `updateCloudflareRecord` in `main.js`: either it returns, or it
throws (record lookup failed, creation/update rejected). -/
inductive PublishOutcome where
  | ok
  | errFail
deriving DecidableEq

/-- The observable result of one run of `main()`: the process exit code and
the server whose publish was attempted, when any. -/
structure RunResult where
  exitCode : Nat
  published : Option Str
deriving DecidableEq

/-- `main()` from `main.js`, after the candidate list is in hand: validate,
then either log-and-return with the DNS record untouched (no `process.exit`
call, so the process ends with code 0) or publish the selected server, where a
publish failure is caught and turns into `process.exit(1)`. -/
def mainRun (probe : Str → ExecOutcome) (publish : Str → PublishOutcome)
    (servers : List Str) : RunResult :=
  match validateKmsServers probe servers with
  | [] => ⟨0, none⟩
  | s :: _ =>
    match publish s with
    | .ok => ⟨0, some s⟩
    | .errFail => ⟨1, some s⟩

/-! ### Predicates used to state the theorems -/

/-- JavaScript `server.split(':')[1]`: the part between the first and the
second colon (as used when the selected server is taken apart). -/
def portOf (s : Str) : Str := ((splitOn ':' s).get? 1).getD []

/-- No occurrence of the pattern-1 label `kms`/`KMS` anywhere in the string. -/
def noKmsIn : Str → Bool
  | [] => true
  | c :: rest =>
    !(List.isPrefixOf (str "kms") (c :: rest) || List.isPrefixOf (str "KMS") (c :: rest)) &&
      noKmsIn rest

/-- The first character, if any, is not a digit: nothing after the token can
extend its captured port. -/
def headNotDigit : Str → Bool
  | [] => true
  | c :: _ => !isDigitCh c

/-- Nothing after a port-less token can extend its captured host or start a
port for it: the text ends, or continues with a non-host character that is not
a colon followed by a digit. -/
def okPostNoPort : Str → Bool
  | [] => true
  | c :: rest => if c == ':' then headNotDigit rest else !isHostCh c

/-- Well-formedness of a match: the host is a non-empty run of host
characters, and the captured port, when present, a non-empty digit run. -/
def goodHostPort (h : Str) (p : Option Str) : Prop :=
  h ≠ [] ∧ (∀ c ∈ h, isHostCh c = true) ∧
    ∀ q : Str, p = some q → q ≠ [] ∧ ∀ c ∈ q, isDigitCh c = true

/-- Well-formedness of an extracted server string: `host:port` with a
non-empty host over `[a-zA-Z0-9.-]` and a non-empty digit port. -/
def goodServer (s : Str) : Prop :=
  ∃ h p : Str, s = h ++ ':' :: p ∧ h ≠ [] ∧ (∀ c ∈ h, isHostCh c = true) ∧
    p ≠ [] ∧ ∀ c ∈ p, isDigitCh c = true

/-! ## Generic lemmas -/

theorem mem_addUnique {l : List Str} {a x : Str} : x ∈ addUnique l a ↔ x ∈ l ∨ x = a := by
  unfold addUnique
  by_cases h : a ∈ l
  · rw [if_pos h]
    constructor
    · exact Or.inl
    · rintro (hx | rfl)
      · exact hx
      · exact h
  · rw [if_neg h]
    simp

theorem mem_foldl_addUnique : ∀ (l acc : List Str) (x : Str),
    x ∈ List.foldl addUnique acc l ↔ x ∈ acc ∨ x ∈ l
  | [], acc, x => by simp
  | a :: l, acc, x => by
    rw [List.foldl_cons, mem_foldl_addUnique l (addUnique acc a) x, mem_addUnique]
    simp [List.mem_cons, or_assoc, or_comm, or_left_comm]

theorem startsWithBy_append (eq : Char → Char → Bool) :
    ∀ {l : Str} (r : Str) {n : Str},
      startsWithBy eq l n = true → startsWithBy eq (l ++ r) n = true
  | _, _, [], _ => by simp [startsWithBy]
  | [], r, n :: ns, h => by simp [startsWithBy] at h
  | c :: l, r, n :: ns, h => by
    simp only [startsWithBy, Bool.and_eq_true] at h
    simp only [List.cons_append, startsWithBy, Bool.and_eq_true]
    exact ⟨h.1, startsWithBy_append eq r h.2⟩

theorem containsBy_append (eq : Char → Char → Bool) :
    ∀ (l r n : Str), containsBy eq l n = true → containsBy eq (l ++ r) n = true
  | [], r, n, h => by
    cases n with
    | nil =>
      cases r with
      | nil => exact h
      | cons c rs => simp [containsBy, startsWithBy]
    | cons m ms => simp [containsBy, startsWithBy] at h
  | c :: l, r, n, h => by
    simp only [containsBy, Bool.or_eq_true] at h
    simp only [List.cons_append, containsBy, Bool.or_eq_true]
    rcases h with h | h
    · exact Or.inl (startsWithBy_append eq r h)
    · exact Or.inr (containsBy_append eq l r n h)

theorem containsBy_hostOf_mono (eq : Char → Char → Bool) (s n : Str)
    (h : containsBy eq (hostOf s) n = true) : containsBy eq s n = true := by
  have h2 := containsBy_append eq (hostOf s) (s.dropWhile (fun c => c != ':')) n h
  rwa [hostOf, List.takeWhile_append_dropWhile] at h2

theorem takeWhile_append_of (p : Char → Bool) :
    ∀ (l post : Str), (∀ x ∈ l, p x = true) →
      (∀ c rest, post = c :: rest → p c = false) →
      (l ++ post).takeWhile p = l ∧ (l ++ post).dropWhile p = post
  | [], post, _, hpost => by
    constructor
    · cases post with
      | nil => rfl
      | cons c rest => simp [List.takeWhile_cons, hpost c rest rfl]
    · cases post with
      | nil => rfl
      | cons c rest => simp [List.dropWhile_cons, hpost c rest rfl]
  | a :: l, post, hl, hpost => by
    have ha : p a = true := hl a (List.mem_cons_self a l)
    have ih := takeWhile_append_of p l post (fun x hx => hl x (List.mem_cons_of_mem a hx)) hpost
    constructor
    · simp [List.takeWhile_cons, ha, ih.1]
    · simp [List.dropWhile_cons, ha, ih.2]

theorem head?_filter (p : Str → Bool) : ∀ l : List Str, (l.filter p).head? = l.find? p
  | [] => rfl
  | a :: l => by
    by_cases h : p a <;> simp [List.filter_cons, List.find?_cons, h, head?_filter p l]

theorem mem_extract_of_specific {text s : Str} (hs : s ∈ specificHits text) :
    s ∈ extractKmsServers text := by
  unfold extractKmsServers
  rw [mem_foldl_addUnique]
  exact Or.inr (List.mem_append_right _ hs)

theorem mem_extract_of_scan1 {text : Str} {m : Str × Option Str} (hm : m ∈ scan1 text)
    (hlike : isLikelyKmsServer (mkServer m) = true) : mkServer m ∈ extractKmsServers text := by
  unfold extractKmsServers
  rw [mem_foldl_addUnique]
  refine Or.inr (List.mem_append_left _ (List.mem_filter.mpr ⟨?_, hlike⟩))
  exact List.mem_append_left _
    (List.mem_append_left _ (List.mem_append_left _ (List.mem_map_of_mem mkServer hm)))

theorem mem_extract_elim {text x : Str} (h : x ∈ extractKmsServers text) :
    isLikelyKmsServer x = true ∨ x ∈ specificServers := by
  unfold extractKmsServers at h
  rw [mem_foldl_addUnique] at h
  rcases h with h | h
  · simp at h
  · rcases List.mem_append.mp h with h | h
    · exact Or.inl (List.mem_filter.mp h).2
    · exact Or.inr (List.mem_filter.mp h).1

/-! ## Claims -/

/-- C1 counterexample: `main()` of `main.js` does not exit with a non-zero
code when probing yields no reachable endpoint.  With every probe failing on
the fallback candidates, the validated list is empty, the publish step is
skipped, and the run ends with exit code 0 — contradicting both "exit code 0
only on a successful publish" and "non-zero when no endpoint is reachable". -/
theorem claim_C1_counterexample :
    validateKmsServers (fun _ => ExecOutcome.err (str "timeout")) useFallbackKmsServers = [] ∧
    mainRun (fun _ => ExecOutcome.err (str "timeout")) (fun _ => PublishOutcome.ok)
      useFallbackKmsServers = ⟨0, none⟩ := by
  exact ⟨by decide, by decide⟩

/-- C1 amended: the publish step is skipped exactly when no endpoint is
reachable, but that case ends the process with exit code 0 (only a failing
publish produces the non-zero exit, code 1). -/
theorem claim_C1_amended (probe : Str → ExecOutcome) (publish : Str → PublishOutcome)
    (servers : List Str) :
    ((mainRun probe publish servers).published = none ↔
      validateKmsServers probe servers = []) ∧
    ((mainRun probe publish servers).exitCode = 0 ↔
      validateKmsServers probe servers = [] ∨
        ∃ s l, validateKmsServers probe servers = s :: l ∧ publish s = PublishOutcome.ok) ∧
    ((mainRun probe publish servers).exitCode = 1 ↔
      ∃ s l, validateKmsServers probe servers = s :: l ∧ publish s = PublishOutcome.errFail) := by
  rcases hv : validateKmsServers probe servers with _ | ⟨s, l⟩
  · refine ⟨by simp [mainRun, hv], by simp [mainRun, hv], ?_⟩
    simp only [mainRun, hv]
    constructor
    · intro h; cases h
    · rintro ⟨s, l, hl, _⟩; cases hl
  · rcases hp : publish s with _ | _
    · refine ⟨by simp [mainRun, hv, hp], ?_, ?_⟩
      · simp only [mainRun, hv, hp]
        exact ⟨fun _ => Or.inr ⟨s, l, rfl, hp⟩, fun _ => trivial⟩
      · simp only [mainRun, hv, hp]
        constructor
        · intro h; cases h
        · rintro ⟨s2, l2, hl, hp2⟩
          obtain ⟨rfl, rfl⟩ : s = s2 ∧ l = l2 := by
            cases hl; exact ⟨rfl, rfl⟩
          rw [hp] at hp2; cases hp2
    · refine ⟨by simp [mainRun, hv, hp], ?_, ?_⟩
      · simp only [mainRun, hv, hp]
        constructor
        · intro h; cases h
        · rintro (h | ⟨s2, l2, hl, hp2⟩)
          · cases h
          · obtain ⟨rfl, rfl⟩ : s = s2 ∧ l = l2 := by
              cases hl; exact ⟨rfl, rfl⟩
            rw [hp] at hp2; cases hp2
      · simp only [mainRun, hv, hp]
        exact ⟨fun _ => ⟨s, l, rfl, hp⟩, fun _ => trivial⟩

/-- C2 counterexample: for the selected endpoint `140.246.142.164:1688`, whose
host is a dotted-quad IPv4 literal, `main.js` still builds both Cloudflare
request bodies with record type `CNAME`, not `A`. -/
theorem claim_C2_counterexample :
    isValidIpAddress (hostOf (str "140.246.142.164:1688")) = true ∧
    (createCloudflareRecordBody (str "140.246.142.164:1688")).rtype = str "CNAME" ∧
    (updateCloudflareRecordByIdBody (str "140.246.142.164:1688")).rtype = str "CNAME" ∧
    str "CNAME" ≠ str "A" :=
  ⟨by decide, rfl, rfl, by decide⟩

/-- C2 amended: in `main.js` every upsert is invoked with record type `CNAME`
and the host part of the selected server as content, regardless of whether the
host is an IPv4 literal; the A-versus-CNAME choice by `isValidIpAddress` is
made only in the `part_001` revision of `main()`. -/
theorem claim_C2_amended :
    (∀ s : Str, (createCloudflareRecordBody s).rtype = str "CNAME" ∧
      (createCloudflareRecordBody s).content = hostOf s ∧
      (updateCloudflareRecordByIdBody s).rtype = str "CNAME" ∧
      (updateCloudflareRecordByIdBody s).content = hostOf s) ∧
    (∀ h : Str, (part001RecordType h = str "A" ↔ isValidIpAddress h = true) ∧
      (part001RecordType h = str "CNAME" ↔ isValidIpAddress h = false)) := by
  constructor
  · intro s
    exact ⟨rfl, rfl, rfl, rfl⟩
  · intro h
    by_cases hip : isValidIpAddress h
    · refine ⟨⟨fun _ => hip, fun _ => by rw [part001RecordType, if_pos hip]⟩, ?_⟩
      rw [part001RecordType, if_pos hip]
      constructor
      · intro habs; cases habs
      · intro habs; rw [hip] at habs; cases habs
    · have hip2 : isValidIpAddress h = false := by
        cases hcase : isValidIpAddress h
        · rfl
        · exact absurd hcase hip
      refine ⟨?_, ⟨fun _ => hip2, fun _ => by rw [part001RecordType, if_neg hip]⟩⟩
      rw [part001RecordType, if_neg hip]
      constructor
      · intro habs; cases habs
      · intro habs; rw [hip2] at habs; cases habs

/-- C5 counterexample: the fallback list of `main.js` is not element-for-
element the documented literal list: entry 11 is spelled `kms8.MSGuides.com`
in the code but `kms8.msguides.com` in the documentation. -/
theorem claim_C5_counterexample :
    List.get? useFallbackKmsServers 10 = some (str "kms8.MSGuides.com:1688") ∧
    List.get? specFallbackList 10 = some (str "kms8.msguides.com:1688") ∧
    useFallbackKmsServers ≠ specFallbackList ∧
    getKmsServersFromIssue FetchOutcome.httpError ≠ specFallbackList :=
  ⟨rfl, rfl, by decide, by decide⟩

/-- C5 amended: whenever the pipeline falls back (fetch failed with an HTTP
error or a thrown network error, or extraction found nothing), the candidate
list used is exactly the 13-entry literal list written in
`useFallbackKmsServers`, which differs from the documented list only in the
capitalization of entry 11 (`kms8.MSGuides.com:1688`). -/
theorem claim_C5_amended :
    getKmsServersFromIssue FetchOutcome.httpError = useFallbackKmsServers ∧
    getKmsServersFromIssue FetchOutcome.networkError = useFallbackKmsServers ∧
    (∀ body : Str, extractKmsServers body = [] →
      getKmsServersFromIssue (FetchOutcome.ok body) = useFallbackKmsServers) ∧
    useFallbackKmsServers =
      [str "kms.hmg.pw:1688", str "kms.xingez.me:1688", str "140.246.142.164:1688",
       str "kms.03k.org:1688", str "kms.chinancce.com:1688", str "kms.ddns.net:1688",
       str "kms.ddz.red:1688", str "kms.lotro.cc:1688", str "kms.luody.info:1688",
       str "kms.moeclub.org:1688", str "kms8.MSGuides.com:1688", str "xykz.f3322.org:1688",
       str "kms.cangshui.net:1688"] := by
  refine ⟨rfl, rfl, ?_, rfl⟩
  intro body hb
  simp [getKmsServersFromIssue, hb]

/-- C5 witness: the empty body extracts nothing, so the fallback list is used. -/
theorem claim_C5_witness :
    extractKmsServers (str "") = [] ∧
    getKmsServersFromIssue (FetchOutcome.ok (str "")) = useFallbackKmsServers :=
  ⟨by decide, claim_C5_amended.2.2.1 (str "") (by decide)⟩

/-- C6: the selector returns the first entry in probe order whose probe
outcome is reachable, and nothing when no entry is reachable; on the probe
results `[(A, false), (B, true), (C, true)]` it returns `B`. -/
theorem claim_C6 :
    (∀ (probe : Str → ExecOutcome) (servers : List Str),
      selectKmsServer (validateKmsServers probe servers) =
        List.find? (fun s => probeReachable (probe s)) servers) ∧
    (∀ (probe : Str → ExecOutcome) (servers : List Str),
      (∀ s ∈ servers, probeReachable (probe s) = false) →
      selectKmsServer (validateKmsServers probe servers) = none) ∧
    selectKmsServer (validateKmsServers
      (fun s => if s = str "A" then ExecOutcome.err (str "refused") else ExecOutcome.ok [] [])
      [str "A", str "B", str "C"]) = some (str "B") := by
  have hgen : ∀ (probe : Str → ExecOutcome) (servers : List Str),
      selectKmsServer (validateKmsServers probe servers) =
        List.find? (fun s => probeReachable (probe s)) servers := by
    intro probe servers
    exact head?_filter _ servers
  refine ⟨hgen, ?_, by decide⟩
  intro probe servers hall
  rw [hgen]
  exact List.find?_eq_none.mpr fun x hx => by simp [hall x hx]

/-- C6 witness: a singleton candidate list whose probe fails selects nothing. -/
theorem claim_C6_witness :
    (∀ s ∈ [str "A"], probeReachable ((fun _ => ExecOutcome.err (str "x")) s) = false) ∧
    selectKmsServer
      (validateKmsServers (fun _ => ExecOutcome.err (str "x")) [str "A"]) = none :=
  ⟨by decide, claim_C6.2.1 _ _ (by decide)⟩

/-- C8: for every ordered candidate list and fixed accept set (the probe
outcome is `connected` exactly on accepted servers), the batch probe stage of
`part_001` produces results in input order with the reachable flag equal to
acceptance, and the accumulated valid list is the accepted subsequence. -/
theorem claim_C8 (oracle : Str → SocketOutcome) (accept : Str → Bool) (servers : List Str)
    (h : ∀ s, testKmsServer (oracle s) = accept s) :
    probeAll oracle servers = servers.map (fun s => (s, accept s)) ∧
    (probeAll oracle servers).map Prod.fst = servers ∧
    validKmsServersPart001 oracle servers =
      ((probeAll oracle servers).filter (fun r => r.2)).map Prod.fst := by
  refine ⟨by simp [probeAll, h], ?_, ?_⟩
  · induction servers with
    | nil => rfl
    | cons s l ih => simpa [probeAll] using ih
  · induction servers with
    | nil => rfl
    | cons s l ih =>
      simp only [probeAll, validKmsServersPart001, List.map_cons, List.filter_cons] at ih ⊢
      cases ht : testKmsServer (oracle s) <;> simp [ht, ih]

/-- C8 witness: with everything accepted, the two-candidate batch returns both
in order with flag true. -/
theorem claim_C8_witness :
    (∀ s : Str, testKmsServer ((fun _ => SocketOutcome.connected) s) = true) ∧
    probeAll (fun _ => SocketOutcome.connected) [str "A", str "B"] =
      [str "A", str "B"].map (fun s => (s, true)) :=
  ⟨fun _ => rfl, (claim_C8 (fun _ => SocketOutcome.connected) (fun _ => true)
    [str "A", str "B"] (fun _ => rfl)).1⟩

/-- C9: a per-candidate probe failure (error event or timeout) makes exactly
that candidate's result `reachable = false`; the batch is total, keeps its
length, and every other candidate is still probed and recorded in place. -/
theorem claim_C9 (oracle : Str → SocketOutcome) (servers : List Str) (i : Nat)
    (h : i < servers.length)
    (hfail : testKmsServer (oracle (servers.get ⟨i, h⟩)) = false) :
    (probeAll oracle servers).length = servers.length ∧
    (probeAll oracle servers).get? i = some (servers.get ⟨i, h⟩, false) ∧
    (∀ j (hj : j < servers.length),
      (probeAll oracle servers).get? j =
        some (servers.get ⟨j, hj⟩, testKmsServer (oracle (servers.get ⟨j, hj⟩)))) := by
  refine ⟨by simp [probeAll], ?_, ?_⟩
  · simp only [probeAll]
    rw [List.get?_map, List.get?_eq_get h]
    simp only [Option.map_some']
    rw [hfail]
  · intro j hj
    simp only [probeAll]
    rw [List.get?_map, List.get?_eq_get hj]
    rfl

/-- C9 witness: with a timed-out oracle on a two-candidate batch, candidate 0
is recorded unreachable and the batch result still has both entries. -/
theorem claim_C9_witness :
    (0 < ([str "A", str "B"] : List Str).length) ∧
    testKmsServer ((fun _ => SocketOutcome.timedOut)
      (([str "A", str "B"] : List Str).get ⟨0, by decide⟩)) = false ∧
    (probeAll (fun _ => SocketOutcome.timedOut) [str "A", str "B"]).length =
      ([str "A", str "B"] : List Str).length :=
  ⟨by decide, by decide,
    (claim_C9 (fun _ => SocketOutcome.timedOut) [str "A", str "B"] 0
      (by decide) (by decide)).1⟩

/-- C10: whenever the text contains `kms.hmg.pw`, `kms.xingez.me` or
`140.246.142.164` as a raw substring, `extractKmsServers` adds the
corresponding hard-coded endpoint with port 1688 to its output, without
consulting the `isLikelyKmsServer` post-filter. -/
theorem claim_C10 (text : Str) :
    (containsSub text (str "kms.hmg.pw") = true →
      str "kms.hmg.pw:1688" ∈ extractKmsServers text) ∧
    (containsSub text (str "kms.xingez.me") = true →
      str "kms.xingez.me:1688" ∈ extractKmsServers text) ∧
    (containsSub text (str "140.246.142.164") = true →
      str "140.246.142.164:1688" ∈ extractKmsServers text) := by
  refine ⟨fun h => ?_, fun h => ?_, fun h => ?_⟩ <;>
    exact mem_extract_of_specific (List.mem_filter.mpr ⟨by decide, h⟩)

/-- C10 witness: a text mentioning `kms.hmg.pw` in passing yields the
hard-coded endpoint. -/
theorem claim_C10_witness :
    containsSub (str "see kms.hmg.pw here") (str "kms.hmg.pw") = true ∧
    str "kms.hmg.pw:1688" ∈ extractKmsServers (str "see kms.hmg.pw here") :=
  ⟨by decide, (claim_C10 (str "see kms.hmg.pw here")).1 (by decide)⟩

/-- C4 counterexample: the denylist is tested against the whole `host:port`
string, so the suffix patterns never fire: the endpoint `foo.css:80`, whose
host `foo.css` matches the denylisted `\.css$` pattern, is extracted. -/
theorem claim_C4_counterexample :
    str "foo.css:80" ∈ extractKmsServers (str "kms:foo.css:80") ∧
    endsWithCI (hostOf (str "foo.css:80")) (str ".css") = true :=
  ⟨by decide, by decide⟩

/-- C4 amended: every extracted endpoint fails the denylist as the code
applies it — on the full `host:port` string.  Consequently no extracted
endpoint's host contains any of the substring-style denylisted patterns
(`github.com`, `example.com`, `localhost`, `127.0.0.1`, `test.`); the
file-extension suffix patterns, however, cannot exclude anything because the
tested string always ends in the port digits. -/
theorem claim_C4_amended :
    (∀ text s : Str, s ∈ extractKmsServers text → notKmsMatch s = false) ∧
    (∀ text s : Str, s ∈ extractKmsServers text →
      containsCI (hostOf s) (str "github.com") = false ∧
      containsCI (hostOf s) (str "example.com") = false ∧
      containsCI (hostOf s) (str "localhost") = false ∧
      containsSub (hostOf s) (str "127.0.0.1") = false ∧
      containsCI (hostOf s) (str "test.") = false) := by
  have hmain : ∀ text s : Str, s ∈ extractKmsServers text → notKmsMatch s = false := by
    intro text s hs
    rcases mem_extract_elim hs with hlike | hspec
    · by_cases hn : notKmsMatch s
      · rw [isLikelyKmsServer, if_pos hn] at hlike
        cases hlike
      · cases hcase : notKmsMatch s
        · rfl
        · exact absurd hcase hn
    · have hcases : s = str "kms.hmg.pw:1688" ∨ s = str "kms.xingez.me:1688" ∨
          s = str "140.246.142.164:1688" := by
        simpa [specificServers] using hspec
      rcases hcases with rfl | rfl | rfl <;> decide
  refine ⟨hmain, ?_⟩
  intro text s hs
  have hn := hmain text s hs
  simp only [notKmsMatch, Bool.or_eq_false_iff] at hn
  have contrap : ∀ (eq : Char → Char → Bool) (n : Str),
      containsBy eq s n = false → containsBy eq (hostOf s) n = false := by
    intro eq n hfull
    cases hcase : containsBy eq (hostOf s) n
    · rfl
    · rw [containsBy_hostOf_mono eq s n hcase] at hfull
      cases hfull
  exact ⟨contrap _ _ hn.1.1.1.1.1.1.1.1.1.1, contrap _ _ hn.1.1.1.1.1.1.1.1.1.2,
    contrap _ _ hn.1.1.1.1.1.1.1.1.2, contrap _ _ hn.1.1.1.1.1.1.1.2,
    contrap _ _ hn.1.1.1.1.1.1.2⟩

/-- C4 witness: a clean endpoint is extracted and fails the denylist. -/
theorem claim_C4_witness :
    str "a.b:1688" ∈ extractKmsServers (str "kms:a.b") ∧
    notKmsMatch (str "a.b:1688") = false :=
  ⟨by decide, claim_C4_amended.1 (str "kms:a.b") (str "a.b:1688") (by decide)⟩

/-! ## Shape of the matches (for C7) -/

theorem digit_isHostCh {c : Char} (h : isDigitCh c = true) : isHostCh c = true := by
  simp [isHostCh, isAlnumCh, h]

theorem alnum_isHostCh {c : Char} (h : isAlnumCh c = true) : isHostCh c = true := by
  simp [isHostCh, h]

theorem nonempty_of_not_isEmpty {l : Str} (h : l.isEmpty = false) : l ≠ [] := by
  cases l with
  | nil => cases h
  | cons a l => exact fun hc => by cases hc

theorem some2_inj {a c : Str} {a2 c2 : Str} (h : some (a, c) = some (a2, c2)) :
    a = a2 ∧ c = c2 := by
  injection h with h2
  injection h2 with h3 h4
  exact ⟨h3, h4⟩

theorem some3_inj {a a2 rest rest2 : Str} {b b2 : Option Str}
    (h : some (a, b, rest) = some (a2, b2, rest2)) : a = a2 ∧ b = b2 ∧ rest = rest2 := by
  injection h with h2
  injection h2 with h3 h4
  injection h4 with h5 h6
  exact ⟨h3, h5, h6⟩

theorem isEmpty_false_of_ne {l : Str} (h : ¬l.isEmpty = true) : l.isEmpty = false := by
  cases hcase : l.isEmpty
  · rfl
  · exact absurd hcase h

theorem takeWhile_digits_good {cs2 q : Str} (hq : cs2.takeWhile isDigitCh = q)
    (hne : (cs2.takeWhile isDigitCh).isEmpty = false) :
    q ≠ [] ∧ ∀ x ∈ q, isDigitCh x = true := by
  subst hq
  exact ⟨nonempty_of_not_isEmpty hne, fun x hx => List.mem_takeWhile_imp hx⟩

theorem match1Port_shape {host cs4 h rest : Str} {p : Option Str}
    (hhost : host ≠ [] ∧ ∀ x ∈ host, isHostCh x = true)
    (hm : match1Port host cs4 = some (h, p, rest)) : goodHostPort h p := by
  simp only [match1Port] at hm
  split at hm
  · rename_i cs5
    by_cases hdne : (cs5.takeWhile isDigitCh).isEmpty = true
    · rw [if_pos hdne] at hm
      obtain ⟨h1, h2, h3⟩ := some3_inj hm
      subst h1; subst h2
      exact ⟨hhost.1, hhost.2, fun q hq => by cases hq⟩
    · rw [if_neg hdne] at hm
      obtain ⟨h1, h2, h3⟩ := some3_inj hm
      subst h1; subst h2
      exact ⟨hhost.1, hhost.2,
        fun q hq => takeWhile_digits_good (Option.some.inj hq) (isEmpty_false_of_ne hdne)⟩
  · obtain ⟨h1, h2, h3⟩ := some3_inj hm
    subst h1; subst h2
    exact ⟨hhost.1, hhost.2, fun q hq => by cases hq⟩

theorem match1Host_shape {cs3 h rest : Str} {p : Option Str}
    (hm : match1Host cs3 = some (h, p, rest)) : goodHostPort h p := by
  simp only [match1Host] at hm
  split at hm
  · cases hm
  · rename_i hemp
    exact match1Port_shape
      ⟨nonempty_of_not_isEmpty (isEmpty_false_of_ne hemp),
        fun x hx => List.mem_takeWhile_imp hx⟩ hm

theorem match1Colon_shape {cs h rest : Str} {p : Option Str}
    (hm : match1Colon cs = some (h, p, rest)) : goodHostPort h p := by
  simp only [match1Colon] at hm
  split at hm
  · exact match1Host_shape hm
  · cases hm

theorem match1At_shape {cs h rest : Str} {p : Option Str}
    (hm : match1At cs = some (h, p, rest)) : goodHostPort h p := by
  simp only [match1At] at hm
  split at hm
  · exact match1Colon_shape hm
  · cases hm

theorem split2Dot_shape {u : Bool} {c : Char} {R afterR ht cont : Str}
    (hR : ∀ x ∈ R, isHostCh x = true)
    (hm : split2Dot u c R afterR = some (ht, cont)) :
    ht ≠ [] ∧ ∀ x ∈ ht, isHostCh x = true := by
  simp only [split2Dot] at hm
  by_cases hdot : (c == '.') = true
  · rw [if_pos hdot] at hm
    split at hm
    · rename_i d tail
      by_cases halnum : isAlnumCh d = true
      · rw [if_pos halnum] at hm
        by_cases hund :
            (u && (((d :: tail).dropWhile isAlnumCh ++ afterR).head? == some '_')) = true
        · rw [if_pos hund] at hm; cases hm
        · rw [if_neg hund] at hm
          obtain ⟨h1, h2⟩ := some2_inj hm
          subst h1
          refine ⟨List.cons_ne_nil _ _, fun x hx => ?_⟩
          rcases List.mem_cons.mp hx with rfl | hx
          · decide
          · exact alnum_isHostCh (List.mem_takeWhile_imp hx)
      · rw [if_neg halnum] at hm; cases hm
    · cases hm
  · rw [if_neg hdot] at hm; cases hm

theorem split2_shape {u : Bool} : ∀ {R afterR ht cont : Str},
    (∀ x ∈ R, isHostCh x = true) → split2 u R afterR = some (ht, cont) →
    ht ≠ [] ∧ ∀ x ∈ ht, isHostCh x = true := by
  intro R
  induction R with
  | nil => intro afterR ht cont _ hm; cases hm
  | cons c R ih =>
    intro afterR ht cont hR hm
    simp only [split2] at hm
    split at hm
    · rename_i ht2 cont2 hsp
      obtain ⟨h1, h2⟩ := some2_inj hm
      subst h1
      have hrec := ih (fun x hx => hR x (List.mem_cons_of_mem c hx)) hsp
      refine ⟨List.cons_ne_nil _ _, fun x hx => ?_⟩
      rcases List.mem_cons.mp hx with rfl | hx
      · exact hR _ (List.mem_cons_self _ _)
      · exact hrec.2 x hx
    · exact split2Dot_shape (fun x hx => hR x (List.mem_cons_of_mem c hx)) hm

theorem portTail2_shape {host cont h rest : Str} {p : Option Str}
    (hhost : host ≠ [] ∧ ∀ x ∈ host, isHostCh x = true)
    (hm : portTail2 host cont = some (h, p, rest)) : goodHostPort h p := by
  simp only [portTail2] at hm
  split at hm
  · rename_i cs2
    by_cases hdne : (cs2.takeWhile isDigitCh).isEmpty = true
    · rw [if_pos hdne] at hm
      obtain ⟨h1, h2, h3⟩ := some3_inj hm
      subst h1; subst h2
      exact ⟨hhost.1, hhost.2, fun q hq => by cases hq⟩
    · rw [if_neg hdne] at hm
      have hdne2 := isEmpty_false_of_ne hdne
      split at hm
      · obtain ⟨h1, h2, h3⟩ := some3_inj hm
        subst h1; subst h2
        exact ⟨hhost.1, hhost.2,
          fun q hq => takeWhile_digits_good (Option.some.inj hq) hdne2⟩
      · rename_i e es _
        by_cases hw : isWordCh e = true
        · rw [if_pos hw] at hm
          obtain ⟨h1, h2, h3⟩ := some3_inj hm
          subst h1; subst h2
          exact ⟨hhost.1, hhost.2, fun q hq => by cases hq⟩
        · rw [if_neg hw] at hm
          obtain ⟨h1, h2, h3⟩ := some3_inj hm
          subst h1; subst h2
          exact ⟨hhost.1, hhost.2,
            fun q hq => takeWhile_digits_good (Option.some.inj hq) hdne2⟩
  · obtain ⟨h1, h2, h3⟩ := some3_inj hm
    subst h1; subst h2
    exact ⟨hhost.1, hhost.2, fun q hq => by cases hq⟩

theorem match2At_shape {pw : Bool} {cs h rest : Str} {p : Option Str}
    (hm : match2At pw cs = some (h, p, rest)) : goodHostPort h p := by
  simp only [match2At] at hm
  split at hm
  · cases hm
  · split at hm
    · cases hm
    · rename_i c cs1
      split at hm
      · rename_i halnum
        split at hm
        · rename_i ht cont hsp
          have hshape := split2_shape (fun x hx => List.mem_takeWhile_imp hx) hsp
          refine portTail2_shape ⟨List.cons_ne_nil _ _, fun x hx => ?_⟩ hm
          rcases List.mem_cons.mp hx with rfl | hx
          · exact alnum_isHostCh halnum
          · exact hshape.2 x hx
        · cases hm
      · cases hm

theorem octetDotG_shape {s d rest : Str} (hm : octetDotG s = some (d, rest)) :
    d ≠ [] ∧ ∀ x ∈ d, isDigitCh x = true := by
  simp only [octetDotG] at hm
  split at hm
  · rename_i hlen
    split at hm
    · obtain ⟨h1, h2⟩ := some2_inj hm
      subst h1
      refine ⟨?_, fun x hx => List.mem_takeWhile_imp hx⟩
      intro hc
      rw [hc] at hlen
      cases hlen
    · cases hm
  · cases hm

theorem ipHost_good {g1 g2 g3 g4 : Str}
    (h1 : ∀ x ∈ g1, isDigitCh x = true) (h2 : ∀ x ∈ g2, isDigitCh x = true)
    (h3 : ∀ x ∈ g3, isDigitCh x = true) (h4 : ∀ x ∈ g4, isDigitCh x = true) :
    g1 ++ '.' :: g2 ++ '.' :: g3 ++ '.' :: g4 ≠ [] ∧
      ∀ x ∈ g1 ++ '.' :: g2 ++ '.' :: g3 ++ '.' :: g4, isHostCh x = true := by
  constructor
  · intro hc
    rw [List.append_eq_nil] at hc
    cases hc.2
  · intro x hx
    rcases List.mem_append.mp hx with hx | hx
    · rcases List.mem_append.mp hx with hx | hx
      · rcases List.mem_append.mp hx with hx | hx
        · exact digit_isHostCh (h1 x hx)
        · rcases List.mem_cons.mp hx with rfl | hx
          · decide
          · exact digit_isHostCh (h2 x hx)
      · rcases List.mem_cons.mp hx with rfl | hx
        · decide
        · exact digit_isHostCh (h3 x hx)
    · rcases List.mem_cons.mp hx with rfl | hx
      · decide
      · exact digit_isHostCh (h4 x hx)

theorem portTail3_shape {host cont h rest : Str} {p : Option Str}
    (hhost : host ≠ [] ∧ ∀ x ∈ host, isHostCh x = true)
    (hm : portTail3 host cont = some (h, p, rest)) : goodHostPort h p := by
  simp only [portTail3] at hm
  split at hm
  · rename_i cs2
    by_cases hdne : (cs2.takeWhile isDigitCh).isEmpty = true
    · rw [if_pos hdne] at hm
      obtain ⟨h1, h2, h3⟩ := some3_inj hm
      subst h1; subst h2
      exact ⟨hhost.1, hhost.2, fun q hq => by cases hq⟩
    · rw [if_neg hdne] at hm
      have hdne2 := isEmpty_false_of_ne hdne
      split at hm
      · obtain ⟨h1, h2, h3⟩ := some3_inj hm
        subst h1; subst h2
        exact ⟨hhost.1, hhost.2,
          fun q hq => takeWhile_digits_good (Option.some.inj hq) hdne2⟩
      · split at hm
        · obtain ⟨h1, h2, h3⟩ := some3_inj hm
          subst h1; subst h2
          exact ⟨hhost.1, hhost.2, fun q hq => by cases hq⟩
        · obtain ⟨h1, h2, h3⟩ := some3_inj hm
          subst h1; subst h2
          exact ⟨hhost.1, hhost.2,
            fun q hq => takeWhile_digits_good (Option.some.inj hq) hdne2⟩
  · obtain ⟨h1, h2, h3⟩ := some3_inj hm
    subst h1; subst h2
    exact ⟨hhost.1, hhost.2, fun q hq => by cases hq⟩
  · split at hm
    · cases hm
    · obtain ⟨h1, h2, h3⟩ := some3_inj hm
      subst h1; subst h2
      exact ⟨hhost.1, hhost.2, fun q hq => by cases hq⟩

theorem match3At_shape {pw : Bool} {cs h rest : Str} {p : Option Str}
    (hm : match3At pw cs = some (h, p, rest)) : goodHostPort h p := by
  simp only [match3At] at hm
  split at hm
  · cases hm
  · split at hm
    · rename_i g1 r1 heq1
      split at hm
      · rename_i g2 r2 heq2
        split at hm
        · rename_i g3 r3 heq3
          split at hm
          · rename_i hlen
            have hg1 := octetDotG_shape heq1
            have hg2 := octetDotG_shape heq2
            have hg3 := octetDotG_shape heq3
            have hg4 : ∀ x ∈ r3.takeWhile isDigitCh, isDigitCh x = true :=
              fun x hx => List.mem_takeWhile_imp hx
            exact portTail3_shape (ipHost_good hg1.2 hg2.2 hg3.2 hg4) hm
          · cases hm
        · cases hm
      · cases hm
    · cases hm

theorem portTail4_shape {host cont h rest : Str} {p : Option Str}
    (hhost : host ≠ [] ∧ ∀ x ∈ host, isHostCh x = true)
    (hm : portTail4 host cont = some (h, p, rest)) : goodHostPort h p := by
  simp only [portTail4] at hm
  split at hm
  · rename_i cs3
    by_cases hdne : (cs3.takeWhile isDigitCh).isEmpty = true
    · rw [if_pos hdne] at hm
      obtain ⟨h1, h2, h3⟩ := some3_inj hm
      subst h1; subst h2
      exact ⟨hhost.1, hhost.2, fun q hq => by cases hq⟩
    · rw [if_neg hdne] at hm
      obtain ⟨h1, h2, h3⟩ := some3_inj hm
      subst h1; subst h2
      exact ⟨hhost.1, hhost.2,
        fun q hq => takeWhile_digits_good (Option.some.inj hq) (isEmpty_false_of_ne hdne)⟩
  · obtain ⟨h1, h2, h3⟩ := some3_inj hm
    subst h1; subst h2
    exact ⟨hhost.1, hhost.2, fun q hq => by cases hq⟩

theorem match4Gap_shape {cs h rest : Str} {p : Option Str}
    (hm : match4Gap cs = some (h, p, rest)) : goodHostPort h p := by
  simp only [match4Gap] at hm
  split at hm
  · cases hm
  · rename_i c cs2 _
    split at hm
    · rename_i halnum
      split at hm
      · rename_i ht cont hsp
        have hshape := split2_shape (fun x hx => List.mem_takeWhile_imp hx) hsp
        refine portTail4_shape ⟨List.cons_ne_nil _ _, fun x hx => ?_⟩ hm
        rcases List.mem_cons.mp hx with rfl | hx
        · exact alnum_isHostCh halnum
        · exact hshape.2 x hx
      · cases hm
    · cases hm

theorem match4At_shape {cs h rest : Str} {p : Option Str}
    (hm : match4At cs = some (h, p, rest)) : goodHostPort h p := by
  simp only [match4At] at hm
  split at hm
  · exact match4Gap_shape hm
  · split at hm
    · exact match4Gap_shape hm
    · cases hm

theorem scan1Fuel_shape : ∀ (f : Nat) (cs : Str) (m : Str × Option Str),
    m ∈ scan1Fuel f cs → goodHostPort m.1 m.2
  | 0, _, m, hm => by cases hm
  | _ + 1, [], m, hm => by cases hm
  | f + 1, c :: cs, m, hm => by
    simp only [scan1Fuel] at hm
    split at hm
    · rename_i h0 p0 rest0 heq
      rcases List.mem_cons.mp hm with rfl | hm2
      · exact match1At_shape heq
      · exact scan1Fuel_shape f rest0 m hm2
    · exact scan1Fuel_shape f cs m hm

theorem scan2Fuel_shape : ∀ (f : Nat) (pw : Bool) (cs : Str) (m : Str × Option Str),
    m ∈ scan2Fuel f pw cs → goodHostPort m.1 m.2
  | 0, _, _, m, hm => by cases hm
  | _ + 1, _, [], m, hm => by cases hm
  | f + 1, pw, c :: cs, m, hm => by
    simp only [scan2Fuel] at hm
    split at hm
    · rename_i h0 p0 rest0 heq
      rcases List.mem_cons.mp hm with rfl | hm2
      · exact match2At_shape heq
      · exact scan2Fuel_shape f true rest0 m hm2
    · exact scan2Fuel_shape f (isWordCh c) cs m hm

theorem scan3Fuel_shape : ∀ (f : Nat) (pw : Bool) (cs : Str) (m : Str × Option Str),
    m ∈ scan3Fuel f pw cs → goodHostPort m.1 m.2
  | 0, _, _, m, hm => by cases hm
  | _ + 1, _, [], m, hm => by cases hm
  | f + 1, pw, c :: cs, m, hm => by
    simp only [scan3Fuel] at hm
    split at hm
    · rename_i h0 p0 rest0 heq
      rcases List.mem_cons.mp hm with rfl | hm2
      · exact match3At_shape heq
      · exact scan3Fuel_shape f true rest0 m hm2
    · exact scan3Fuel_shape f (isWordCh c) cs m hm

theorem scan4Fuel_shape : ∀ (f : Nat) (cs : Str) (m : Str × Option Str),
    m ∈ scan4Fuel f cs → goodHostPort m.1 m.2
  | 0, _, m, hm => by cases hm
  | _ + 1, [], m, hm => by cases hm
  | f + 1, c :: cs, m, hm => by
    simp only [scan4Fuel] at hm
    split at hm
    · rename_i h0 p0 rest0 heq
      rcases List.mem_cons.mp hm with rfl | hm2
      · exact match4At_shape heq
      · exact scan4Fuel_shape f rest0 m hm2
    · exact scan4Fuel_shape f cs m hm

theorem mkServer_good {m : Str × Option Str} (hm : goodHostPort m.1 m.2) :
    goodServer (mkServer m) := by
  rcases m with ⟨h, _ | q⟩
  · exact ⟨h, str "1688", rfl, hm.1, hm.2.1, by decide, by decide⟩
  · exact ⟨h, q, rfl, hm.1, hm.2.1, (hm.2.2 q rfl).1, (hm.2.2 q rfl).2⟩

theorem specific_good {s : Str} (hs : s ∈ specificServers) : goodServer s := by
  have hcases : s = str "kms.hmg.pw:1688" ∨ s = str "kms.xingez.me:1688" ∨
      s = str "140.246.142.164:1688" := by
    simpa [specificServers] using hs
  rcases hcases with rfl | rfl | rfl
  · exact ⟨str "kms.hmg.pw", str "1688", rfl, by decide, by decide, by decide, by decide⟩
  · exact ⟨str "kms.xingez.me", str "1688", rfl, by decide, by decide, by decide, by decide⟩
  · exact ⟨str "140.246.142.164", str "1688", rfl, by decide, by decide, by decide, by decide⟩

theorem mem_extract_cases {text x : Str} (h : x ∈ extractKmsServers text) :
    x ∈ (scan1 text).map mkServer ∨ x ∈ (scan2 text).map mkServer ∨
      x ∈ (scan3 text).map mkServer ∨ x ∈ (scan4 text).map mkServer ∨
      x ∈ specificServers := by
  unfold extractKmsServers at h
  rw [mem_foldl_addUnique] at h
  rcases h with h | h
  · simp at h
  · rcases List.mem_append.mp h with h | h
    · have hx := (List.mem_filter.mp h).1
      rcases List.mem_append.mp hx with hx | hx
      · rcases List.mem_append.mp hx with hx | hx
        · rcases List.mem_append.mp hx with hx | hx
          · exact Or.inl hx
          · exact Or.inr (Or.inl hx)
        · exact Or.inr (Or.inr (Or.inl hx))
      · exact Or.inr (Or.inr (Or.inr (Or.inl hx)))
    · exact Or.inr (Or.inr (Or.inr (Or.inr (List.mem_filter.mp h).1)))

/-- C7 counterexample: the extracted candidate set does not keep ports in
`[1, 65535]`: a `kms:` token with port `0` (or `99999`) is extracted verbatim,
violating the claimed Endpoint invariant. -/
theorem claim_C7_counterexample :
    str "host.com:0" ∈ extractKmsServers (str "kms:host.com:0") ∧
    strToNat (portOf (str "host.com:0")) = 0 ∧
    ¬(1 ≤ strToNat (portOf (str "host.com:0"))) ∧
    str "host.com:99999" ∈ extractKmsServers (str "kms:host.com:99999") ∧
    strToNat (portOf (str "host.com:99999")) = 99999 ∧
    ¬(strToNat (portOf (str "host.com:99999")) ≤ 65535) :=
  ⟨by decide, by decide, by decide, by decide, by decide, by decide⟩

/-- C7 amended: every endpoint in the candidate set produced by extraction is
of the form `host:port` where the host is a non-empty string over
`[a-zA-Z0-9.-]` and the port a non-empty decimal digit string; the port value
is not range-checked (0 or values above 65535 can occur). -/
theorem claim_C7_amended (text s : Str) (hs : s ∈ extractKmsServers text) :
    ∃ h p : Str, s = h ++ ':' :: p ∧ h ≠ [] ∧ (∀ c ∈ h, isHostCh c = true) ∧
      p ≠ [] ∧ ∀ c ∈ p, isDigitCh c = true := by
  have hgood : goodServer s := by
    rcases mem_extract_cases hs with h1 | h2 | h3 | h4 | h5
    · rcases List.mem_map.mp h1 with ⟨m, hm, rfl⟩
      exact mkServer_good (scan1Fuel_shape _ _ _ hm)
    · rcases List.mem_map.mp h2 with ⟨m, hm, rfl⟩
      exact mkServer_good (scan2Fuel_shape _ _ _ _ hm)
    · rcases List.mem_map.mp h3 with ⟨m, hm, rfl⟩
      exact mkServer_good (scan3Fuel_shape _ _ _ _ hm)
    · rcases List.mem_map.mp h4 with ⟨m, hm, rfl⟩
      exact mkServer_good (scan4Fuel_shape _ _ _ hm)
    · exact specific_good h5
  exact hgood

/-- C7 witness: the endpoint extracted from `kms:a.b` has the amended shape. -/
theorem claim_C7_witness :
    str "a.b:1688" ∈ extractKmsServers (str "kms:a.b") ∧
    ∃ h p : Str, str "a.b:1688" = h ++ ':' :: p ∧ h ≠ [] ∧
      (∀ c ∈ h, isHostCh c = true) ∧ p ≠ [] ∧ ∀ c ∈ p, isDigitCh c = true :=
  ⟨by decide, claim_C7_amended (str "kms:a.b") (str "a.b:1688") (by decide)⟩

/-! ## Pattern 1 on a well-formed token (for C3) -/

theorem str_kms : str "kms" = ['k', 'm', 's'] := rfl

theorem str_KMS : str "KMS" = ['K', 'M', 'S'] := rfl

theorem hostCh_not_ws {c : Char} (h : isHostCh c = true) : isWsCh c = false := by
  have hval : (65 ≤ c.toNat ∧ c.toNat ≤ 90) ∨ (97 ≤ c.toNat ∧ c.toNat ≤ 122) ∨
      (48 ≤ c.toNat ∧ c.toNat ≤ 57) ∨ c.toNat = 46 ∨ c.toNat = 45 := by
    simp only [isHostCh, isAlnumCh, isAlphaCh, isDigitCh, Bool.or_eq_true, Bool.and_eq_true,
      decide_eq_true_eq, beq_iff_eq] at h
    rcases h with ((h | h) | rfl) | rfl
    · rcases h with h | h
      · exact Or.inl h
      · exact Or.inr (Or.inl h)
    · exact Or.inr (Or.inr (Or.inl h))
    · exact Or.inr (Or.inr (Or.inr (Or.inl rfl)))
    · exact Or.inr (Or.inr (Or.inr (Or.inr rfl)))
  simp only [isWsCh, Bool.or_eq_false_iff, Bool.and_eq_false_iff, beq_eq_false_iff_ne, ne_eq,
    decide_eq_false_iff_not, not_le]
  omega

theorem isEmpty_eq_false_of_ne_nil {l : Str} (h : l ≠ []) : l.isEmpty = false := by
  cases l with
  | nil => exact absurd rfl h
  | cons a l => rfl

theorem dropWhile_cons_false {p : Char → Bool} {c : Char} {l : Str} (h : p c = false) :
    (c :: l).dropWhile p = c :: l := by
  rw [List.dropWhile_cons, h]
  simp

theorem match1Port_port {host d post : Str} (hd : d ≠ [])
    (hdig : ∀ c ∈ d, isDigitCh c = true) (hpost : headNotDigit post = true) :
    match1Port host (':' :: (d ++ post)) = some (host, some d, post) := by
  have hpost2 : ∀ c rest, post = c :: rest → isDigitCh c = false := by
    intro c rest hrfl
    subst hrfl
    simpa [headNotDigit] using hpost
  have htk := takeWhile_append_of isDigitCh d post hdig hpost2
  show (if ((d ++ post).takeWhile isDigitCh).isEmpty then
          some (host, none, ':' :: (d ++ post))
        else some (host, some ((d ++ post).takeWhile isDigitCh),
          (d ++ post).dropWhile isDigitCh)) = some (host, some d, post)
  rw [htk.1, htk.2, isEmpty_eq_false_of_ne_nil hd]
  rfl

theorem match1Port_noport {host post : Str} (hpost : okPostNoPort post = true) :
    match1Port host post = some (host, none, post) := by
  rcases post with _ | ⟨c, rest⟩
  · rfl
  · by_cases hc : c = ':'
    · subst hc
      have hnd : headNotDigit rest = true := by
        simpa [okPostNoPort] using hpost
      have hempty : rest.takeWhile isDigitCh = [] := by
        rcases rest with _ | ⟨e, es⟩
        · rfl
        · rw [List.takeWhile_cons]
          have he : isDigitCh e = false := by simpa [headNotDigit] using hnd
          rw [he]
          rfl
      show (if (rest.takeWhile isDigitCh).isEmpty then some (host, none, ':' :: rest)
            else some (host, some (rest.takeWhile isDigitCh), rest.dropWhile isDigitCh)) =
        some (host, none, ':' :: rest)
      rw [hempty]
      rfl
    · simp only [match1Port]
      split
      · rename_i heq
        injection heq with a b
        exact absurd a hc
      · rfl

theorem okPost_not_host {post : Str} (h : okPostNoPort post = true) :
    ∀ c rest, post = c :: rest → isHostCh c = false := by
  intro c rest hrfl
  subst hrfl
  by_cases hc : (c == ':') = true
  · have : c = ':' := by simpa using hc
    subst this
    decide
  · have h2 : (!isHostCh c) = true := by
      simpa [okPostNoPort, hc] using h
    simpa using h2

theorem match1Host_eq {h post4 : Str} (hh : h ≠ []) (hhost : ∀ c ∈ h, isHostCh c = true)
    (hpost4 : ∀ c rest, post4 = c :: rest → isHostCh c = false) :
    match1Host (h ++ post4) = match1Port h post4 := by
  have htk := takeWhile_append_of isHostCh h post4 hhost hpost4
  simp only [match1Host]
  rw [htk.1, htk.2, isEmpty_eq_false_of_ne_nil hh]
  rfl

theorem dropWhile_ws_of_host {h post4 : Str} (hh : h ≠ [])
    (hhost : ∀ c ∈ h, isHostCh c = true) :
    (h ++ post4).dropWhile isWsCh = h ++ post4 := by
  rcases h with _ | ⟨hc, h2⟩
  · exact absurd rfl hh
  · rw [List.cons_append,
      dropWhile_cons_false (hostCh_not_ws (hhost hc (List.mem_cons_self hc h2)))]

theorem match1At_token_port {h d post : Str} (hh : h ≠ [])
    (hhost : ∀ c ∈ h, isHostCh c = true) (hd : d ≠ [])
    (hdig : ∀ c ∈ d, isDigitCh c = true) (hpost : headNotDigit post = true) :
    match1At (str "kms:" ++ (h ++ ':' :: (d ++ post))) = some (h, some d, post) := by
  show match1Host ((h ++ ':' :: (d ++ post)).dropWhile isWsCh) = some (h, some d, post)
  rw [dropWhile_ws_of_host hh hhost,
    match1Host_eq hh hhost (fun c rest hrfl => by cases hrfl; decide),
    match1Port_port hd hdig hpost]

theorem match1At_token_noport {h post : Str} (hh : h ≠ [])
    (hhost : ∀ c ∈ h, isHostCh c = true) (hpost : okPostNoPort post = true) :
    match1At (str "kms:" ++ (h ++ post)) = some (h, none, post) := by
  show match1Host ((h ++ post).dropWhile isWsCh) = some (h, none, post)
  rw [dropWhile_ws_of_host hh hhost, match1Host_eq hh hhost (okPost_not_host hpost),
    match1Port_noport hpost]

theorem scan1_head_mem {c : Char} {t h0 rest : Str} {p0 : Option Str}
    (hm : match1At (c :: t) = some (h0, p0, rest)) : (h0, p0) ∈ scan1 (c :: t) := by
  show (h0, p0) ∈ scan1Fuel ((c :: t).length + 1) (c :: t)
  rw [List.length_cons]
  simp only [scan1Fuel]
  split
  · rename_i h1 p1 r1 heq
    rw [hm] at heq
    obtain ⟨e1, e2, e3⟩ := some3_inj heq
    subst e1; subst e2
    exact List.mem_cons_self _ _
  · rename_i heq
    rw [hm] at heq
    cases heq

theorem kms_not_prefix_append {c : Char} {pre t : Str} (hk : noKmsIn (c :: pre) = true) :
    List.isPrefixOf (str "kms") ((c :: pre) ++ 'k' :: t) = false ∧
      List.isPrefixOf (str "KMS") ((c :: pre) ++ 'k' :: t) = false := by
  have hself : List.isPrefixOf (str "kms") (c :: pre) = false ∧
      List.isPrefixOf (str "KMS") (c :: pre) = false := by
    simp only [noKmsIn, Bool.and_eq_true, Bool.not_eq_true', Bool.or_eq_false_iff] at hk
    exact hk.1
  rw [str_kms, str_KMS] at hself ⊢
  have e1 : (('m' : Char) == 'k') = false := by decide
  have e2 : (('s' : Char) == 'k') = false := by decide
  have e3 : (('M' : Char) == 'k') = false := by decide
  have e4 : (('S' : Char) == 'k') = false := by decide
  rcases pre with _ | ⟨b, pre2⟩
  · constructor
    · simp [List.isPrefixOf, e1]
    · simp [List.isPrefixOf, e3]
  · rcases pre2 with _ | ⟨b2, pre3⟩
    · constructor
      · simp [List.isPrefixOf, e2]
      · simp [List.isPrefixOf, e4]
    · constructor
      · have hs := hself.1
        simp only [List.cons_append, List.isPrefixOf, Bool.and_eq_false_iff] at hs ⊢
        rcases hs with hs | hs
        · exact Or.inl hs
        · rcases hs with hs | hs
          · exact Or.inr (Or.inl hs)
          · rcases hs with hs | hs
            · exact Or.inr (Or.inr (Or.inl hs))
            · simp [List.isPrefixOf] at hs
      · have hs := hself.2
        simp only [List.cons_append, List.isPrefixOf, Bool.and_eq_false_iff] at hs ⊢
        rcases hs with hs | hs
        · exact Or.inl hs
        · rcases hs with hs | hs
          · exact Or.inr (Or.inl hs)
          · rcases hs with hs | hs
            · exact Or.inr (Or.inr (Or.inl hs))
            · simp [List.isPrefixOf] at hs

theorem match1At_none_of_block {cs : Str}
    (h1 : List.isPrefixOf (str "kms") cs = false)
    (h2 : List.isPrefixOf (str "KMS") cs = false) : match1At cs = none := by
  simp only [match1At]
  rw [h1, h2]
  rfl

theorem scan1_skip : ∀ (pre t : Str), noKmsIn pre = true →
    scan1 (pre ++ 'k' :: t) = scan1 ('k' :: t)
  | [], t, _ => by rw [List.nil_append]
  | c :: pre, t, hk => by
    have hk2 : noKmsIn pre = true := by
      have h2 := hk
      simp only [noKmsIn, Bool.and_eq_true] at h2
      exact h2.2
    have hblock := kms_not_prefix_append (t := t) hk
    have hnone : match1At (c :: (pre ++ 'k' :: t)) = none := by
      have := match1At_none_of_block hblock.1 hblock.2
      rwa [List.cons_append] at this
    show scan1Fuel (((c :: pre) ++ 'k' :: t).length + 1) ((c :: pre) ++ 'k' :: t) =
      scan1 ('k' :: t)
    rw [List.cons_append, List.length_cons]
    simp only [scan1Fuel]
    split
    · rename_i h1 p1 r1 heq
      rw [hnone] at heq
      cases heq
    · exact scan1_skip pre t hk2

/-- C3 counterexample: containing a well-formed `kms:host:port` token is not
enough for the endpoint to be extracted.  Two failures: the text
`kms:kms:vlmcsd` contains the well-formed token `kms:vlmcsd`, but the earlier
overlapping match `kms:kms` consumes its label, so `vlmcsd:1688` is not in the
output; and `kms:github.com:1688` is itself a well-formed token whose endpoint
is removed by the `isLikelyKmsServer` post-filter. -/
theorem claim_C3_counterexample :
    containsSub (str "kms:kms:vlmcsd") (str "kms:vlmcsd") = true ∧
    str "vlmcsd:1688" ∉ extractKmsServers (str "kms:kms:vlmcsd") ∧
    containsSub (str "kms:github.com:1688") (str "kms:github.com:1688") = true ∧
    str "github.com:1688" ∉ extractKmsServers (str "kms:github.com:1688") :=
  ⟨by decide, by decide, by decide, by decide⟩

/-- C3 amended: extraction includes the exact `host:port` of a well-formed
`kms:host:port` token (with default port 1688 when the token gives no port)
provided the occurrence is one the scan actually matches and the filter keeps:
the text before the token contains no `kms`/`KMS` label that an earlier match
could start at, the token is followed by a character that cannot extend it (no
digit after the port; no host character and no colon-digit after a port-less
host), and the resulting `host:port` string passes `isLikelyKmsServer`. -/
theorem claim_C3_amended :
    (∀ pre h d post : Str, noKmsIn pre = true → h ≠ [] →
      (∀ c ∈ h, isHostCh c = true) → d ≠ [] → (∀ c ∈ d, isDigitCh c = true) →
      headNotDigit post = true → isLikelyKmsServer (h ++ ':' :: d) = true →
      h ++ ':' :: d ∈
        extractKmsServers (pre ++ (str "kms:" ++ (h ++ ':' :: (d ++ post))))) ∧
    (∀ pre h post : Str, noKmsIn pre = true → h ≠ [] →
      (∀ c ∈ h, isHostCh c = true) → okPostNoPort post = true →
      isLikelyKmsServer (h ++ str ":1688") = true →
      h ++ str ":1688" ∈ extractKmsServers (pre ++ (str "kms:" ++ (h ++ post)))) := by
  constructor
  · intro pre h d post hpre hh hhost hd hdig hpost hlike
    have hmatch : match1At ('k' :: (str "ms:" ++ (h ++ ':' :: (d ++ post)))) =
        some (h, some d, post) := match1At_token_port hh hhost hd hdig hpost
    have hmem2 : (h, some d) ∈
        scan1 (pre ++ ('k' :: (str "ms:" ++ (h ++ ':' :: (d ++ post))))) := by
      rw [scan1_skip pre _ hpre]
      exact scan1_head_mem hmatch
    exact mem_extract_of_scan1 hmem2 hlike
  · intro pre h post hpre hh hhost hpost hlike
    have hmatch : match1At ('k' :: (str "ms:" ++ (h ++ post))) = some (h, none, post) :=
      match1At_token_noport hh hhost hpost
    have hmem2 : (h, none) ∈ scan1 (pre ++ ('k' :: (str "ms:" ++ (h ++ post)))) := by
      rw [scan1_skip pre _ hpre]
      exact scan1_head_mem hmatch
    exact mem_extract_of_scan1 hmem2 hlike

/-- C3 witness: a clean token inside surrounding text is extracted verbatim. -/
theorem claim_C3_witness :
    noKmsIn (str "note ") = true ∧
    isLikelyKmsServer (str "kms.abc.org:1699") = true ∧
    str "kms.abc.org:1699" ∈
      extractKmsServers (str "note kms:kms.abc.org:1699 tail") :=
  ⟨by decide, by decide,
    claim_C3_amended.1 (str "note ") (str "kms.abc.org") (str "1699") (str " tail")
      (by decide) (by decide) (by decide) (by decide) (by decide) (by decide) (by decide)⟩

end KmsCheck
